import Mathlib

/-!
Shallow Lean embedding of the pyapi repository (dealfonso/pyapi) used to
check the natural-language specification against the code.

Modules embedded:
* `pyapi/dependencies.py` — `get_api_key`, `get_current_username`
* `pyapi/debug.py`        — `_n_debug_val`, `p_log`
* `pyapi/config.py`       — `Config.read_from_object`, `Config.load`
* `pyapi/utils.py`        — `remove_nones`
* `pyapi/jsondb.py`       — `JsonDB.save`

Machine-level conventions: Python strings are `String`, Python `None` for an
optional argument is `Option.none`, a Python `list` is a Lean `List`, a
`dict` is an association list of `(String, value)` pairs (yaml/json mappings
have unique keys, looked up first-match), an exception is the `Except.error`
branch of the result, and side effects (stdout, file system) are passed and
returned explicitly.
-/

namespace PyApi

/-! ## dependencies.py -/

/-- An HTTP error raised via `fastapi.HTTPException(status_code, detail)`. -/
structure HTTPException where
  status : Nat
  detail : String
deriving DecidableEq, Repr

/-- Python `x in keys` where `x` is an `Optional[str]` (the query / header
value is `None` when absent; `None` is never an element of a list of
strings, so membership is `False` for `none`). -/
def optMem (x : Option String) (keys : List String) : Bool :=
  match x with
  | some s => keys.contains s
  | none => false

/-- Embedding of `dependencies.get_api_key` (dependencies.py:24-50).
`apiKeys` is the configured `API_KEYS` (`none` models the Python value
`None`); `qv`/`hv` are the query-parameter and header values, absent values
being `none`. -/
def get_api_key (apiKeys : Option (List String)) (qv hv : Option String) :
    Except HTTPException String :=
  match apiKeys with
  | none => Except.ok ("default")
  | some keys =>
    if keys.length = 0 then Except.ok ("default")
    else
      match qv with
      | some q =>
        if keys.contains q then Except.ok q
        else
          match hv with
          | some h =>
            if keys.contains h then Except.ok h
            else Except.error ⟨401, "Invalid or missing API Key"⟩
          | none => Except.error ⟨401, "Invalid or missing API Key"⟩
      | none =>
        match hv with
        | some h =>
          if keys.contains h then Except.ok h
          else Except.error ⟨401, "Invalid or missing API Key"⟩
        | none => Except.error ⟨401, "Invalid or missing API Key"⟩

/-- Embedding of `dependencies.get_current_username` (dependencies.py:53-85).
`authorizedUsers` is `AUTHORIZED_USERS`, `allowAnonymous` is
`ALLOW_ANONYMOUS_USER`, `username` is `credentials.username`. -/
def get_current_username (authorizedUsers : Option (List String))
    (allowAnonymous : Bool) (username : String) :
    Except HTTPException String :=
  match authorizedUsers with
  | none =>
    if username = "" then
      if allowAnonymous then Except.ok ("anonymous")
      else Except.error ⟨401, "invalid user name"⟩
    else Except.ok username
  | some users =>
    if users.length = 0 then
      if username = "" then
        if allowAnonymous then Except.ok ("anonymous")
        else Except.error ⟨401, "invalid user name"⟩
      else Except.ok username
    else
      if users.contains username then Except.ok username
      else Except.error ⟨401, "user is not authorized"⟩

/-! ## debug.py -/

/-- Python `str.upper()` (character-wise upper-casing; the names it is
applied to here are plain ASCII). -/
def pyUpper (s : String) : String := String.mk (s.data.map Char.toUpper)

/-- Python `str.lower()` (character-wise lower-casing; configuration keys
are plain ASCII). -/
def pyLower (s : String) : String := String.mk (s.data.map Char.toLower)

/-- The ordered level list of `debug._n_debug_val` (debug.py:42). -/
def levelNames : List String :=
  ["OUTPUT", "FATAL", "ERROR", "WARN", "INFO", "DEBUG", "TRACE"]

/-- Embedding of `debug._n_debug_val` (debug.py:40-45): the index of the upper-cased name
in `levelNames`; on a `ValueError` (name not present) the source logs an
error and falls back to `_n_debug_val("INFO")`, whose value is the index 4. -/
def n_debug_val (name : String) : Nat :=
  match levelNames.indexOf? (pyUpper name) with
  | some i => i
  | none => 4

/-- Mutable module state of debug.py: `LOG_LEVEL`, `LOG_FILE`, `QUIET`. -/
structure LogState where
  logLevel : String
  logFile : Option String
  quiet : Bool
deriving DecidableEq, Repr

/-- Lines printed / appended by one `p_log` call. -/
structure LogOut where
  stdout : List String
  fileWrites : List (String × String)
deriving DecidableEq, Repr

/-- The formatted line of debug.py:52 `"[{level}] {now} {msg}"`; `now` stands
for `str(datetime.now())`, passed in explicitly since wall-clock time is
external input. -/
def mkLogString (level now msg : String) : String :=
  "[" ++ level ++ "] " ++ now ++ " " ++ msg

/-- The first line printed when appending to the log file raises
(debug.py:59); the text of the caught exception is environment input and is
folded into the fixed message. -/
def writeErrorLine (f : String) : String :=
  "Error writting to log file " ++ f ++ ": "

/-- The second line printed on a log-file write failure (debug.py:60). -/
def deactivateLine : String :=
  "Deactivating writting to log file"

/-- Embedding of `debug.p_log` (debug.py:47-64) as a state transformer.  `canWrite f`
says whether appending to file `f` succeeds (the `try` block) or raises
(the `except` block). -/
def p_log (st : LogState) (canWrite : String → Bool)
    (level now msg : String) : LogState × LogOut :=
  if n_debug_val level ≤ n_debug_val st.logLevel then
    let logString := mkLogString level now msg
    match st.logFile with
    | some f =>
      if canWrite f then
        (st, ⟨if st.quiet then [] else [logString], [(f, logString ++ "\n")]⟩)
      else
        ({ st with logFile := none },
         ⟨[writeErrorLine f, deactivateLine] ++
            (if st.quiet then [] else [logString]), []⟩)
    | none => (st, ⟨if st.quiet then [] else [logString], []⟩)
  else (st, ⟨[], []⟩)

/-! ## config.py -/

/-- A Python value as handled by `Config.read_from_object`: a scalar parsed
from yaml (modelled by `int` and `str`), a plain `dict` (a parsed yaml
mapping), or a `Config` instance (distinguished because
`Config.read_from_object` tests `isinstance(..., Config)`). -/
inductive CVal where
  | int : Int → CVal
  | str : String → CVal
  | dict : List (String × CVal) → CVal
  | config : List (String × CVal) → CVal

/-- The attribute map of a `Config` instance.  The embedding keeps exactly
the configuration attributes (the source filters out private names,
callables and modules when it enumerates `dir(self)`; those never carry
configuration and are left out of the model). -/
abbrev Attrs := List (String × CVal)

/-- First-match lookup in an association list: `dict[key]` /
`getattr(self, key)`. -/
def lookupAttr : Attrs → String → Option CVal
  | [], _ => none
  | (k, v) :: rest, key => if k = key then some v else lookupAttr rest key

/-- Python `setattr(self, key, v)`: replaces the existing binding, appends when the
attribute does not exist yet. -/
def setAttr : Attrs → String → CVal → Attrs
  | [], key, v => [(key, v)]
  | (k, w) :: rest, key, v =>
    if k = key then (key, v) :: rest else (k, w) :: setAttr rest key v

/-- The `object_attributes` value of `Config.read_from_object` (config.py:133-137):
the keys of a `dict`.  For a scalar the source computes `dir(object)`; no
attribute of a yaml scalar is a configuration key, so the model returns the
empty list, and a `Config` never occurs on the object side (the loader only
passes parsed yaml values there). -/
def objKeys : CVal → List String
  | .dict fields => fields.map Prod.fst
  | _ => []

/-- Python `object[key]` guarded by `key in object_attributes`: defined exactly on
the keys of a `dict` (see `objKeys`). -/
def objGet : CVal → String → Option CVal
  | .dict fields, key => lookupAttr fields key
  | _, _ => none

theorem sizeOf_lookupAttr {fields : Attrs} {k : String} {v : CVal}
    (h : lookupAttr fields k = some v) : sizeOf v < sizeOf fields := by
  induction fields with
  | nil => simp [lookupAttr] at h
  | cons kv rest ih =>
    obtain ⟨k0, v0⟩ := kv
    by_cases hk : k0 = k
    · simp [lookupAttr, hk] at h
      subst h
      simp
      omega
    · simp [lookupAttr, hk] at h
      have := ih h
      simp
      omega

theorem sizeOf_objGet {obj : CVal} {k : String} {v : CVal}
    (h : objGet obj k = some v) : sizeOf v < sizeOf obj := by
  cases obj with
  | dict fields =>
    simp only [objGet] at h
    have := sizeOf_lookupAttr h
    simp
    omega
  | int n => simp [objGet] at h
  | str s => simp [objGet] at h
  | config fields => simp [objGet] at h

/-- The body of `Config.read_from_object` (config.py:122-153): iterate over
the variable names (computed once, from `dir(self)`), and for each name

* if the name is a key of the object, overwrite the attribute with
  `object[name]` — or, when the current attribute value is a `Config`
  instance, merge recursively into it;
* otherwise, if the lower-cased name is a key, do the same with
  `object[name.lower()]`;
* otherwise leave the attribute alone. -/
def readVars (self : Attrs) (names : List String) (obj : CVal) : Attrs :=
  match names with
  | [] => self
  | name :: rest =>
    let self' :=
      match h : objGet obj name with
      | some v =>
        match lookupAttr self name with
        | some (.config inner) =>
          setAttr self name (.config (readVars inner (inner.map Prod.fst) v))
        | _ => setAttr self name v
      | none =>
        match h' : objGet obj (pyLower name) with
        | some v =>
          match lookupAttr self name with
          | some (.config inner) =>
            setAttr self name (.config (readVars inner (inner.map Prod.fst) v))
          | _ => setAttr self name v
        | none => self
    readVars self' rest obj
termination_by (sizeOf obj, names.length)
decreasing_by
  · exact Prod.Lex.left _ _ (sizeOf_objGet h)
  · exact Prod.Lex.left _ _ (sizeOf_objGet h')
  · exact Prod.Lex.right _ (Nat.lt_succ_self _)

/-- Embedding of `Config.read_from_object(self, object)` with the default
`variables_to_acquire`, i.e. the configuration attributes of `self`
(config.py:130-131; `dir` enumerates them in sorted order, but the result
does not depend on the iteration order since each step touches one
attribute). -/
def readFromObject (self : Attrs) (obj : CVal) : Attrs :=
  readVars self (self.map Prod.fst) obj

/-- The warning `p_warning(f"Error reading configuration file {filename}:
key {subkey} not found")` of config.py:202. -/
def subkeyWarning (filename subkey : String) : String :=
  "Error reading configuration file " ++ filename ++ ": key " ++ subkey ++
    " not found"

/-- Result of `Config.load`: the updated configuration, `used_files`, and
the warnings emitted through `p_warning`. -/
structure LoadResult where
  cfg : Attrs
  used : List String
  warnings : List String

/-- The error raised by `Config.load`.  `typeErr` is the Python `TypeError`
raised by iterating over `None` (see `configLoad`). -/
inductive LoadErr where
  | typeErr
deriving DecidableEq, Repr

/-- The `for filename in filenames` loop of `Config.load`
(config.py:188-212) in the non-layered case (with `layered_configuration`
false the trailing `if not layered_configuration: break` always fires, so at
most one file is applied).  `fs name` is the parsed yaml content of file
`name`, `none` when `os.path.isfile` is false.  Note that the source appends
to `used_files` *before* the sub-key check, so a file skipped for a missing
sub-key is still recorded. -/
def loadLoop (self : Attrs) (subkey : Option String)
    (fs : String → Option CVal) : List String → LoadResult
  | [] => ⟨self, [], []⟩
  | f :: rest =>
    match fs f with
    | none => loadLoop self subkey fs rest
    | some configuration =>
      match subkey with
      | some k =>
        match objGet configuration k with
        | none =>
          let r := loadLoop self subkey fs rest
          ⟨r.cfg, f :: r.used, subkeyWarning f k :: r.warnings⟩
        | some sub => ⟨readFromObject self sub, [f], []⟩
      | none => ⟨readFromObject self configuration, [f], []⟩

/-- Embedding of `Config.load(self, filenames, layered_configuration, subkey)`
(config.py:155-212) for a list argument.  With `layered_configuration` true
the source executes `filenames = filenames.reverse()`; the Python
`list.reverse` reverses in place and returns `None`, so `filenames` becomes
`None` and the subsequent `for filename in filenames` raises
a `TypeError` (NoneType is not iterable) before any file is read. -/
def configLoad (self : Attrs) (filenames : List String) (layered : Bool)
    (subkey : Option String) (fs : String → Option CVal) :
    Except LoadErr LoadResult :=
  if layered then Except.error LoadErr.typeErr
  else Except.ok (loadLoop self subkey fs filenames)

/-! ## utils.py and jsondb.py -/

/-- A Python value in the range of `json.loads` / domain of `json.dumps`:
`None`, booleans, numbers, strings, lists and dicts. -/
inductive JVal where
  | null : JVal
  | bool : Bool → JVal
  | int : Int → JVal
  | str : String → JVal
  | arr : List JVal → JVal
  | obj : List (String × JVal) → JVal

mutual

/-- The field traversal of `utils.remove_nones` on a dict (utils.py:72-82):
keys whose value is `None` are collected and deleted afterwards; a dict
value is cleaned in place by the recursive call; for a list value the source
builds the cleaned comprehension
`[remove_nones(item) for item in value if item != None]` but assigns it to
the loop-local variable, so only the *in-place* mutation of dict items
survives — `None` items stay, and lists nested inside the list are returned
untouched by `remove_nones` (it returns any non-dict argument unchanged). -/
def cleanFields : List (String × JVal) → List (String × JVal)
  | [] => []
  | (k, v) :: rest =>
    match v with
    | .null => cleanFields rest
    | .obj f => (k, .obj (cleanFields f)) :: cleanFields rest
    | .arr items => (k, .arr (cleanItems items)) :: cleanFields rest
    | x => (k, x) :: cleanFields rest

/-- Effect of `remove_nones` being called on each item of a list value: a
dict item is cleaned in place, every other item (including `None` and
nested lists) is left as is. -/
def cleanItems : List JVal → List JVal
  | [] => []
  | it :: rest =>
    match it with
    | .obj f => .obj (cleanFields f) :: cleanItems rest
    | x => x :: cleanItems rest

end

/-- Embedding of `utils.remove_nones` (utils.py:56-82): `None` and non-dict arguments are
returned unchanged; a dict has its `None`-valued keys deleted and its values
cleaned as described at `cleanFields`. -/
def remove_nones : JVal → JVal
  | .obj fields => .obj (cleanFields fields)
  | v => v

/-- The state of a `JsonDB` as far as `save` reads it: `_filename` and the
value returned by the derived-class-supplied `_objectToSave()` step
(jsondb.py:98), i.e. the serialized in-memory tree. -/
structure JsonDB where
  filename : Option String
  objectToSave : JVal

/-- Embedding of `JsonDB.save` (jsondb.py:89-100): fails when `_filename` is not set;
otherwise opens the file with mode `"w"` (truncating) and writes
`json.dumps(remove_nones(self._objectToSave()), indent=2)`.  The file system
is modelled at the JSON-value level (`fs name` is the parsed content of file
`name`); `json.dumps` is injective on this domain, so overwriting with the
dumped text is overwriting with the value. -/
def JsonDB.save (db : JsonDB) (fs : String → Option JVal) :
    Except String (String → Option JVal) :=
  match db.filename with
  | none => Except.error ("filename is not set")
  | some fn =>
    Except.ok (fun g => if g = fn then some (remove_nones db.objectToSave)
                        else fs g)

/-! ## Helper definitions used by the statements -/

/-- The content the non-layered `Config.load` loop actually applies to the
configuration, mirroring the traversal of `loadLoop`: missing files and
existing files whose mapping lacks the requested sub-key are passed over,
and the first applicable content (the whole mapping, or its sub-key entry,
config.py:200-207) is the one applied; `none` when no file is applied. -/
def appliedContent (subkey : Option String) (fs : String → Option CVal) :
    List String → Option CVal
  | [] => none
  | f :: rest =>
    match fs f with
    | none => appliedContent subkey fs rest
    | some v =>
      match subkey with
      | some k =>
        match objGet v k with
        | none => appliedContent subkey fs rest
        | some sub => some sub
      | none => some v

mutual

/-- Whether some field list, searched recursively through object values and
array elements, contains a `null`-valued key. -/
def hasNullField : List (String × JVal) → Bool
  | [] => false
  | (_, v) :: rest =>
    (match v with | .null => true | _ => false) || hasNullIn v ||
      hasNullField rest

/-- Whether the value contains, anywhere below it (through objects and
arrays), an object field whose value is `null`. -/
def hasNullIn : JVal → Bool
  | .obj fields => hasNullField fields
  | .arr items => hasNullArr items
  | _ => false

/-- Disjunction of `hasNullIn` over the elements of an array. -/
def hasNullArr : List JVal → Bool
  | [] => false
  | it :: rest => hasNullIn it || hasNullArr rest

end

mutual

/-- The guarantee `remove_nones` actually establishes on a field list: no
field is `null`-valued and every value satisfies `cleanedVal`. -/
def cleanedFields : List (String × JVal) → Bool
  | [] => true
  | (_, v) :: rest =>
    (match v with | .null => false | _ => true) && cleanedVal v &&
      cleanedFields rest

/-- Cleanliness as guaranteed by `remove_nones`: objects are recursively
clean, and objects that are direct elements of an array are clean.  Nothing
is guaranteed below a second level of arrays, nor about `null` array
elements — exactly the limit of the traversal in the source. -/
def cleanedVal : JVal → Bool
  | .obj fields => cleanedFields fields
  | .arr items => cleanedArr items
  | _ => true

/-- Restriction of `cleanedVal` to array elements: object elements are clean, all other
elements (including nested arrays) are unconstrained. -/
def cleanedArr : List JVal → Bool
  | [] => true
  | it :: rest =>
    (match it with | .obj f => cleanedFields f | _ => true) && cleanedArr rest

end

/-- The content `JsonDB.save` leaves in the own file of the store, `none` when
`save` fails or no filename is set. -/
def savedContent (db : JsonDB) (fs : String → Option JVal) : Option JVal :=
  match JsonDB.save db fs with
  | Except.ok fs' =>
    match db.filename with
    | some fn => fs' fn
    | none => none
  | Except.error _ => none

/-! ## Theorems: auth dependency injectors -/

/-- C3: the API-key check accepts and returns the sentinel "default" when
the configured key allow-list is empty (or absent `None`); when the
allow-list is non-empty it returns the candidate key exactly when the
query-parameter value or the header value is a member of the allow-list,
and otherwise raises an unauthorized (401) error. -/
theorem get_api_key_spec (apiKeys : Option (List String))
    (qv hv : Option String) :
    ((apiKeys = none ∨ apiKeys = some []) →
      get_api_key apiKeys qv hv = Except.ok ("default")) ∧
    (∀ keys, apiKeys = some keys → keys ≠ [] →
      ((∀ q, qv = some q → q ∈ keys →
          get_api_key apiKeys qv hv = Except.ok q) ∧
       (∀ h, optMem qv keys = false → hv = some h → h ∈ keys →
          get_api_key apiKeys qv hv = Except.ok h) ∧
       (optMem qv keys = false → optMem hv keys = false →
          get_api_key apiKeys qv hv =
            Except.error ⟨401, "Invalid or missing API Key"⟩))) := by
  constructor
  · rintro (rfl | rfl) <;> rfl
  · rintro keys rfl hne
    have hlen : ¬ keys.length = 0 := by
      simpa [List.length_eq_zero] using hne
    refine ⟨?_, ?_, ?_⟩
    · rintro q rfl hq
      simp [get_api_key, hlen, hq]
    · rintro h hqv rfl hh
      cases qv with
      | none => simp [get_api_key, hlen, hh]
      | some q =>
        simp only [optMem] at hqv
        have hq : q ∉ keys := by simpa using hqv
        simp [get_api_key, hlen, hq, hh]
    · intro hqv hhv
      cases qv with
      | none =>
        cases hv with
        | none => simp [get_api_key, hlen]
        | some h =>
          simp only [optMem] at hhv
          have hh : h ∉ keys := by simpa using hhv
          simp [get_api_key, hlen, hh]
      | some q =>
        simp only [optMem] at hqv
        have hq : q ∉ keys := by simpa using hqv
        cases hv with
        | none => simp [get_api_key, hlen, hq]
        | some h =>
          simp only [optMem] at hhv
          have hh : h ∉ keys := by simpa using hhv
          simp [get_api_key, hlen, hq, hh]

/-- Witness for C3: the key "k1" passed as query parameter is accepted
against the allow-list `["k1"]`. -/
theorem get_api_key_spec_witness :
    (some ["k1"] : Option (List String)) ≠ none ∧
    get_api_key (some ["k1"]) (some ("k1")) none = Except.ok ("k1") :=
  ⟨by simp,
   ((get_api_key_spec (some ["k1"]) (some ("k1")) none).2 ["k1"] rfl
      (by simp)).1 ("k1") rfl (by simp)⟩

/-- C10: when both the query parameter and the header carry a key belonging
to a non-empty allow-list, the API-key check returns the query-parameter
value; the header value is returned only when the query value is not in the
allow-list. -/
theorem get_api_key_query_precedence (keys : List String) (q h : String) :
    (q ∈ keys → get_api_key (some keys) (some q) (some h) = Except.ok q) ∧
    (q ∉ keys → h ∈ keys →
      get_api_key (some keys) (some q) (some h) = Except.ok h) := by
  constructor
  · intro hq
    have hlen : ¬ keys.length = 0 := by
      rcases keys with _ | ⟨a, l⟩
      · cases hq
      · simp
    simp [get_api_key, hlen, hq]
  · intro hq hh
    have hlen : ¬ keys.length = 0 := by
      rcases keys with _ | ⟨a, l⟩
      · cases hh
      · simp
    simp [get_api_key, hlen, hq, hh]

/-- Witness for C10: with allow-list `["q", "h"]` and both candidates
valid, the query value "q" is the one returned. -/
theorem get_api_key_query_precedence_witness :
    "q" ∈ ["q", "h"] ∧
    get_api_key (some ["q", "h"]) (some ("q")) (some ("h")) = Except.ok ("q") :=
  ⟨by simp,
   (get_api_key_query_precedence ["q", "h"] "q" "h").1 (by simp)⟩

/-- C4: with an empty (or absent) authorized-user allow-list, any non-empty
username is accepted and returned; an empty username is accepted as the
sentinel "anonymous" exactly when anonymous access is enabled and otherwise
rejected with a 401; with a non-empty allow-list, the username is accepted
iff it appears in the list, and rejected with a 401 otherwise. -/
theorem get_current_username_spec (authorizedUsers : Option (List String))
    (allowAnonymous : Bool) (username : String) :
    ((authorizedUsers = none ∨ authorizedUsers = some []) →
      ((username ≠ "" →
         get_current_username authorizedUsers allowAnonymous username =
           Except.ok username) ∧
       (username = "" → allowAnonymous = true →
         get_current_username authorizedUsers allowAnonymous username =
           Except.ok ("anonymous")) ∧
       (username = "" → allowAnonymous = false →
         get_current_username authorizedUsers allowAnonymous username =
           Except.error ⟨401, "invalid user name"⟩))) ∧
    (∀ users, authorizedUsers = some users → users ≠ [] →
      ((username ∈ users →
         get_current_username authorizedUsers allowAnonymous username =
           Except.ok username) ∧
       (username ∉ users →
         get_current_username authorizedUsers allowAnonymous username =
           Except.error ⟨401, "user is not authorized"⟩))) := by
  constructor
  · rintro (rfl | rfl) <;>
      exact ⟨fun hu => by simp [get_current_username, hu],
             fun hu ha => by subst hu ha; rfl,
             fun hu ha => by subst hu ha; rfl⟩
  · rintro users rfl hne
    have hlen : ¬ users.length = 0 := by
      simpa [List.length_eq_zero] using hne
    exact ⟨fun hu => by simp [get_current_username, hlen, hu],
           fun hu => by simp [get_current_username, hlen, hu]⟩

/-- Witness for C4: with allow-list `["alice"]`, the username "alice" is
accepted and "bob" is rejected with a 401. -/
theorem get_current_username_spec_witness :
    (["alice"] : List String) ≠ [] ∧
    get_current_username (some ["alice"]) false ("alice") =
      Except.ok ("alice") ∧
    get_current_username (some ["alice"]) false ("bob") =
      Except.error ⟨401, "user is not authorized"⟩ :=
  ⟨by simp,
   ((get_current_username_spec (some ["alice"]) false ("alice")).2 ["alice"]
      rfl (by simp)).1 (by simp),
   ((get_current_username_spec (some ["alice"]) false ("bob")).2 ["alice"]
      rfl (by simp)).2 (by simp)⟩

/-! ## Theorems: logger -/

/-- With no log file and quiet mode off, `p_log` prints the formatted line
iff the message level passes the configured-level filter. -/
theorem p_log_stdout_nonempty (C : String) (cw : String → Bool)
    (L now msg : String) :
    (p_log ⟨C, none, false⟩ cw L now msg).2.stdout ≠ [] ↔
      n_debug_val L ≤ n_debug_val C := by
  by_cases hc : n_debug_val L ≤ n_debug_val C <;> simp [p_log, hc]

/-- C5: for levels drawn from the enumeration OUTPUT, FATAL, ERROR, WARN,
INFO, DEBUG, TRACE (ranked 0..6 in that order), a message of level `L` is
emitted under configured level `C` iff `rank L ≤ rank C`; OUTPUT is always
emitted, and under configured level INFO exactly TRACE and DEBUG are
suppressed. -/
theorem p_log_level_filter (L C : String) (hL : L ∈ levelNames)
    (hC : C ∈ levelNames) (cw : String → Bool) (now msg : String) :
    ((p_log ⟨C, none, false⟩ cw L now msg).2.stdout ≠ [] ↔
      n_debug_val L ≤ n_debug_val C) ∧
    (n_debug_val ("OUTPUT") = 0 ∧ n_debug_val ("FATAL") = 1 ∧
     n_debug_val ("ERROR") = 2 ∧ n_debug_val ("WARN") = 3 ∧
     n_debug_val ("INFO") = 4 ∧ n_debug_val ("DEBUG") = 5 ∧
     n_debug_val ("TRACE") = 6) ∧
    ((p_log ⟨C, none, false⟩ cw ("OUTPUT") now msg).2.stdout ≠ []) ∧
    (C = "INFO" →
      ((p_log ⟨C, none, false⟩ cw L now msg).2.stdout ≠ [] ↔
        (L = "OUTPUT" ∨ L = "FATAL" ∨ L = "ERROR" ∨ L = "WARN" ∨
         L = "INFO"))) := by
  refine ⟨p_log_stdout_nonempty C cw L now msg, by decide, ?_, ?_⟩
  · rw [p_log_stdout_nonempty]
    have h0 : n_debug_val ("OUTPUT") = 0 := by decide
    rw [h0]
    exact Nat.zero_le _
  · rintro rfl
    rw [p_log_stdout_nonempty]
    fin_cases hL <;> decide

/-- Witness for C5: level WARN is emitted under configured level INFO. -/
theorem p_log_level_filter_witness :
    "WARN" ∈ levelNames ∧ "INFO" ∈ levelNames ∧
    ((p_log ⟨"INFO", none, false⟩ (fun _ => true) "WARN" "t" "m").2.stdout
        ≠ [] ↔ n_debug_val ("WARN") ≤ n_debug_val ("INFO")) :=
  ⟨by decide, by decide,
   (p_log_level_filter ("WARN") "INFO" (by decide) (by decide)
      (fun _ => true) "t" "m").1⟩

/-- C9: when the append to the configured log file fails, `p_log` clears
the log-file setting, performs no file write, reports the failure on
standard output, still prints the message to standard output when quiet
mode is off, and any later `p_log` call from the resulting state performs
no file write and keeps the log-file setting cleared. -/
theorem p_log_write_failure (st : LogState) (cw cw2 : String → Bool)
    (f level now msg level2 now2 msg2 : String)
    (hf : st.logFile = some f) (hw : cw f = false)
    (hemit : n_debug_val level ≤ n_debug_val st.logLevel) :
    ((p_log st cw level now msg).1.logFile = none) ∧
    ((p_log st cw level now msg).2.fileWrites = []) ∧
    (writeErrorLine f ∈ (p_log st cw level now msg).2.stdout) ∧
    (st.quiet = false →
      mkLogString level now msg ∈ (p_log st cw level now msg).2.stdout) ∧
    ((p_log (p_log st cw level now msg).1 cw2 level2 now2 msg2).2.fileWrites
        = []) ∧
    ((p_log (p_log st cw level now msg).1 cw2 level2 now2 msg2).1.logFile
        = none) := by
  have h1 : p_log st cw level now msg =
      ({ st with logFile := none },
       ⟨[writeErrorLine f, deactivateLine] ++
          (if st.quiet then [] else [mkLogString level now msg]), []⟩) := by
    simp [p_log, hf, hw, hemit]
  refine ⟨by rw [h1], by rw [h1], ?_, ?_, ?_, ?_⟩
  · rw [h1]; simp
  · intro hq; rw [h1]; simp [hq]
  · rw [h1]
    by_cases h2 : n_debug_val level2 ≤ n_debug_val st.logLevel <;>
      simp [p_log, h2]
  · rw [h1]
    by_cases h2 : n_debug_val level2 ≤ n_debug_val st.logLevel <;>
      simp [p_log, h2]

/-- Witness for C9: a failing write at level INFO under configured level
INFO clears the log file and writes nothing to it. -/
theorem p_log_write_failure_witness :
    ((⟨"INFO", some ("app.log"), false⟩ : LogState).logFile = some ("app.log")) ∧
    ((p_log ⟨"INFO", some ("app.log"), false⟩ (fun _ => false) "INFO" "t"
        "m").1.logFile = none) :=
  ⟨rfl,
   (p_log_write_failure ⟨"INFO", some ("app.log"), false⟩ (fun _ => false)
      (fun _ => false) "app.log" "INFO" "t" "m" "INFO" "t" "m" rfl rfl
      (by decide)).1⟩

/-! ## Theorems: Config.load -/

/-- C1 (code bug): with `layered_configuration` true, `Config.load` always
raises `TypeError` — `filenames = filenames.reverse()` stores `None` (the
return value of the in-place Python `list.reverse`) and the loop then
iterates over `None` — so no file is ever applied and no list of used
files is returned, contradicting the documented layered behaviour. -/
theorem configLoad_layered_raises (self : Attrs) (filenames : List String)
    (subkey : Option String) (fs : String → Option CVal) :
    configLoad self filenames true subkey fs =
      Except.error LoadErr.typeErr := rfl

/-- C2: with the first-match (non-layered) policy and file `A` existing,
`Config.load` applies exactly the applicable content of `A` (all of it with no
sub-key, its sub-key entry when one is requested and present), ignores `B`
entirely (the result does not depend on `B` or its content), and returns
exactly `[A]`. -/
theorem configLoad_first_match (self : Attrs) (A B : String) (vA : CVal)
    (fs : String → Option CVal) (hA : fs A = some vA) :
    (configLoad self [A, B] false none fs =
      Except.ok ⟨readFromObject self vA, [A], []⟩) ∧
    (∀ k sub, objGet vA k = some sub →
      configLoad self [A, B] false (some k) fs =
        Except.ok ⟨readFromObject self sub, [A], []⟩) := by
  constructor
  · simp [configLoad, loadLoop, hA]
  · intro k sub hsub
    simp [configLoad, loadLoop, hA, hsub]

/-- Witness for C2: with `a.yaml` present, first-match loading uses only
`a.yaml`. -/
theorem configLoad_first_match_witness :
    ((fun f => if f = "a.yaml" then some (CVal.dict []) else none)
        "a.yaml" = some (CVal.dict [])) ∧
    configLoad [] ["a.yaml", "b.yaml"] false none
        (fun f => if f = "a.yaml" then some (CVal.dict []) else none) =
      Except.ok ⟨readFromObject [] (CVal.dict []), ["a.yaml"], []⟩ :=
  ⟨by simp,
   (configLoad_first_match [] "a.yaml" "b.yaml" (CVal.dict [])
      (fun f => if f = "a.yaml" then some (CVal.dict []) else none)
      (by simp)).1⟩

/-- C8 counterexample: file `a.yaml` exists but lacks the requested sub-key
`"k"`; it is skipped with a warning and contributes nothing, yet it still
appears in the returned list (`["a.yaml", "b.yaml"]` instead of only the
applied `["b.yaml"]`), because `Config.load` appends to `used_files`
before the sub-key check. -/
theorem configLoad_skipped_file_reported :
    configLoad [] ["a.yaml", "b.yaml"] false (some ("k"))
        (fun f =>
          if f = "a.yaml" then some (CVal.dict [("other", CVal.int 1)])
          else if f = "b.yaml" then
            some (CVal.dict [("k", CVal.dict [])])
          else none) =
      Except.ok ⟨readFromObject [] (CVal.dict []),
                 ["a.yaml", "b.yaml"], [subkeyWarning ("a.yaml") "k"]⟩ ∧
    (["a.yaml", "b.yaml"] : List String) ≠ ["b.yaml"] := by
  constructor
  · simp [configLoad, loadLoop, objGet, lookupAttr]
  · simp

/-- C8 as amended: an existing candidate file whose parsed mapping lacks
the requested sub-key makes `Config.load` emit a warning, leave the
configuration unchanged by that file, and proceed to the next candidate —
but the skipped file is still prepended to the returned list, which
therefore records every existing file that was opened, not only those whose
content was applied. -/
theorem configLoad_missing_subkey (self : Attrs) (A : String)
    (rest : List String) (k : String) (fs : String → Option CVal)
    (vA : CVal) (hA : fs A = some vA) (hk : objGet vA k = none) :
    configLoad self (A :: rest) false (some k) fs =
      Except.ok ⟨(loadLoop self (some k) fs rest).cfg,
                 A :: (loadLoop self (some k) fs rest).used,
                 subkeyWarning A k ::
                   (loadLoop self (some k) fs rest).warnings⟩ := by
  simp [configLoad, loadLoop, hA, hk]

/-- Witness for the amended claim C8: a one-file list whose file lacks the
sub-key yields an unchanged configuration, the file in the used list, and
the warning. -/
theorem configLoad_missing_subkey_witness :
    ((fun f => if f = "a.yaml" then some (CVal.dict []) else none)
        "a.yaml" = some (CVal.dict [])) ∧
    (objGet (CVal.dict []) "k" = none) ∧
    configLoad [] ["a.yaml"] false (some ("k"))
        (fun f => if f = "a.yaml" then some (CVal.dict []) else none) =
      Except.ok ⟨[], ["a.yaml"], [subkeyWarning ("a.yaml") "k"]⟩ :=
  ⟨by simp, rfl,
   configLoad_missing_subkey [] "a.yaml" [] "k"
      (fun f => if f = "a.yaml" then some (CVal.dict []) else none)
      (CVal.dict []) (by simp) rfl⟩

/-! ## Theorems: read_from_object frame properties -/

theorem lookupAttr_setAttr_ne (s : Attrs) (m n : String) (v : CVal)
    (h : n ≠ m) : lookupAttr (setAttr s m v) n = lookupAttr s n := by
  have hmn : ¬ m = n := fun he => h he.symm
  induction s with
  | nil => simp [setAttr, lookupAttr, hmn]
  | cons kv rest ih =>
    obtain ⟨k, w⟩ := kv
    by_cases hk : k = m
    · subst hk
      simp [setAttr, lookupAttr, hmn]
    · by_cases hkn : k = n
      · subst hkn
        simp [setAttr, hk, lookupAttr]
      · simp [setAttr, hk, lookupAttr, hkn, ih]

theorem setAttr_keys_of_mem (s : Attrs) (m : String) (v : CVal)
    (h : m ∈ s.map Prod.fst) :
    (setAttr s m v).map Prod.fst = s.map Prod.fst := by
  induction s with
  | nil => simp at h
  | cons kv rest ih =>
    obtain ⟨k, w⟩ := kv
    by_cases hk : k = m
    · subst hk
      simp [setAttr]
    · rcases (by simpa using h : m = k ∨ m ∈ rest.map Prod.fst) with h' | h'
      · exact absurd h'.symm hk
      · simp [setAttr, hk, ih h']

/-- An attribute name that is a key neither of the object (under its own
spelling) nor under its lower-cased spelling keeps its value across
the variable loop of `read_from_object`. -/
theorem readVars_lookup_preserved (names : List String) (self : Attrs)
    (obj : CVal) (n : String) (h1 : objGet obj n = none)
    (h2 : objGet obj (pyLower n) = none) :
    lookupAttr (readVars self names obj) n = lookupAttr self n := by
  induction names generalizing self with
  | nil => simp only [readVars]
  | cons name rest ih =>
    simp only [readVars]
    rw [ih]
    by_cases hn : name = n
    · subst hn
      split
      · next v heq => rw [h1] at heq; exact absurd heq (by simp)
      · split
        · next v heq => rw [h2] at heq; exact absurd heq (by simp)
        · rfl
    · split
      · split
        · exact lookupAttr_setAttr_ne _ _ _ _ (fun he => hn he.symm)
        · exact lookupAttr_setAttr_ne _ _ _ _ (fun he => hn he.symm)
      · split
        · split
          · exact lookupAttr_setAttr_ne _ _ _ _ (fun he => hn he.symm)
          · exact lookupAttr_setAttr_ne _ _ _ _ (fun he => hn he.symm)
        · rfl

/-- The variable loop of `read_from_object` never creates attributes: the
attribute names are unchanged when every looped name already exists. -/
theorem readVars_keys (names : List String) (self : Attrs) (obj : CVal)
    (hnames : ∀ m ∈ names, m ∈ self.map Prod.fst) :
    (readVars self names obj).map Prod.fst = self.map Prod.fst := by
  induction names generalizing self with
  | nil => simp only [readVars]
  | cons name rest ih =>
    have hname : name ∈ self.map Prod.fst := hnames name (by simp)
    simp only [readVars]
    have key : ∀ (s : Attrs), s.map Prod.fst = self.map Prod.fst →
        (readVars s rest obj).map Prod.fst = self.map Prod.fst := by
      intro s hs
      rw [ih s (fun m hm => hs ▸ hnames m (List.mem_cons_of_mem _ hm)), hs]
    apply key
    split
    · split <;> exact setAttr_keys_of_mem _ _ _ hname
    · split
      · split <;> exact setAttr_keys_of_mem _ _ _ hname
      · rfl

/-- C7 counterexample: the configurable attribute `FOO` has prior value
`0` and the mapping of the single applied file has the key `"FOO"` but not the
lowercase `"foo"`; the loader still overwrites the attribute (the source
checks the exact spelling before the lower-cased one), so "lowercase form
absent implies preserved" is false as stated. -/
theorem configLoad_exact_case_override :
    (pyLower ("FOO") ∉ objKeys (CVal.dict [("FOO", CVal.int 1)])) ∧
    configLoad [("FOO", CVal.int 0)] ["cfg.yaml"] false none
        (fun f => if f = "cfg.yaml" then
          some (CVal.dict [("FOO", CVal.int 1)]) else none) =
      Except.ok ⟨[("FOO", CVal.int 1)], ["cfg.yaml"], []⟩ := by
  constructor
  · decide
  · simp [configLoad, loadLoop, readFromObject, readVars, objGet,
      lookupAttr, setAttr]

/-- C7 as amended: for every configurable attribute name such that neither
the name itself nor its lowercase form appears as a key in the parsed
mapping of any applied source file (`appliedContent` — candidates that are
missing, skipped, or never reached after the first-match break are
unconstrained), the prior value on the target is preserved by the loader,
and the loader never creates new attributes. -/
theorem configLoad_preserves_absent_names (self : Attrs)
    (files : List String) (subkey : Option String)
    (fs : String → Option CVal) (n : String)
    (habs : ∀ c, appliedContent subkey fs files = some c →
      n ∉ objKeys c ∧ pyLower n ∉ objKeys c) :
    lookupAttr (loadLoop self subkey fs files).cfg n = lookupAttr self n ∧
    (loadLoop self subkey fs files).cfg.map Prod.fst =
      self.map Prod.fst := by
  have hnone : ∀ (c : CVal) (m : String), m ∉ objKeys c →
      objGet c m = none := by
    intro c m hm
    cases c with
    | dict fields =>
      simp only [objKeys] at hm
      simp only [objGet]
      induction fields with
      | nil => rfl
      | cons kv rest ih =>
        obtain ⟨k, w⟩ := kv
        simp only [List.map_cons, List.mem_cons] at hm
        push_neg at hm
        have hk : ¬ k = m := fun he => hm.1 he.symm
        simp [lookupAttr, hk, ih hm.2]
    | int _ => rfl
    | str _ => rfl
    | config _ => rfl
  have happ : ∀ (c : CVal), n ∉ objKeys c → pyLower n ∉ objKeys c →
      lookupAttr (readFromObject self c) n = lookupAttr self n ∧
      (readFromObject self c).map Prod.fst = self.map Prod.fst := by
    intro c hc1 hc2
    exact ⟨readVars_lookup_preserved _ _ _ _ (hnone c n hc1)
             (hnone c (pyLower n) hc2),
           readVars_keys _ _ _ (fun m hm => hm)⟩
  revert habs
  induction files with
  | nil => exact fun _ => ⟨rfl, rfl⟩
  | cons f rest ih =>
    intro habs
    show lookupAttr (loadLoop self subkey fs (f :: rest)).cfg n = _ ∧ _
    rw [loadLoop]
    cases hf : fs f with
    | none =>
      have habs' : ∀ c, appliedContent subkey fs rest = some c →
          n ∉ objKeys c ∧ pyLower n ∉ objKeys c := by
        intro c hc
        exact habs c (by simpa [appliedContent, hf] using hc)
      simpa using ih habs'
    | some v =>
      cases subkey with
      | none =>
        have h := habs v (by simp [appliedContent, hf])
        simpa using happ v h.1 h.2
      | some k =>
        cases hk : objGet v k with
        | none =>
          have habs' : ∀ c, appliedContent (some k) fs rest = some c →
              n ∉ objKeys c ∧ pyLower n ∉ objKeys c := by
            intro c hc
            exact habs c (by simpa [appliedContent, hf, hk] using hc)
          simpa [hk] using ih habs'
        | some sub =>
          have h := habs sub (by simp [appliedContent, hf, hk])
          simpa [hk] using happ sub h.1 h.2

/-- Witness for the amended claim C7: the attribute `FOO` survives a
first-match load of two existing files where `a.yaml`, the applied file,
only has the unrelated key `"bar"` — even though the never-applied
post-break candidate `b.yaml` does carry the key `"foo"`. -/
theorem configLoad_preserves_absent_names_witness :
    lookupAttr (loadLoop [("FOO", CVal.int 0)] none
        (fun f => if f = "a.yaml" then
            some (CVal.dict [("bar", CVal.int 1)])
          else if f = "b.yaml" then
            some (CVal.dict [("foo", CVal.int 2)])
          else none)
        ["a.yaml", "b.yaml"]).cfg ("FOO") =
      lookupAttr [("FOO", CVal.int 0)] "FOO" :=
  (configLoad_preserves_absent_names [("FOO", CVal.int 0)]
    ["a.yaml", "b.yaml"] none
    (fun f => if f = "a.yaml" then
        some (CVal.dict [("bar", CVal.int 1)])
      else if f = "b.yaml" then
        some (CVal.dict [("foo", CVal.int 2)])
      else none) "FOO"
    (by
      intro c hc
      simp only [appliedContent] at hc
      simp at hc
      subst hc
      exact ⟨by decide, by decide⟩)).1

/-! ## Theorems: JsonDB.save and remove_nones -/

mutual

/-- The output of `cleanFields` satisfies the cleanliness guarantee. -/
theorem cleanFields_cleaned : ∀ (fields : List (String × JVal)),
    cleanedFields (cleanFields fields) = true
  | [] => by simp [cleanFields, cleanedFields]
  | (k, v) :: rest => by
    cases v with
    | null => simpa [cleanFields] using cleanFields_cleaned rest
    | bool b =>
      simp [cleanFields, cleanedFields, cleanedVal, cleanFields_cleaned rest]
    | int n =>
      simp [cleanFields, cleanedFields, cleanedVal, cleanFields_cleaned rest]
    | str s =>
      simp [cleanFields, cleanedFields, cleanedVal, cleanFields_cleaned rest]
    | obj f =>
      simp [cleanFields, cleanedFields, cleanedVal, cleanFields_cleaned f,
        cleanFields_cleaned rest]
    | arr items =>
      simp [cleanFields, cleanedFields, cleanedVal,
        cleanItems_cleaned items, cleanFields_cleaned rest]

/-- The output of `cleanItems` satisfies the cleanliness guarantee for
array elements. -/
theorem cleanItems_cleaned : ∀ (items : List JVal),
    cleanedArr (cleanItems items) = true
  | [] => by simp [cleanItems, cleanedArr]
  | it :: rest => by
    cases it with
    | obj f =>
      simp [cleanItems, cleanedArr, cleanFields_cleaned f,
        cleanItems_cleaned rest]
    | null => simp [cleanItems, cleanedArr, cleanItems_cleaned rest]
    | bool b => simp [cleanItems, cleanedArr, cleanItems_cleaned rest]
    | int n => simp [cleanItems, cleanedArr, cleanItems_cleaned rest]
    | str s => simp [cleanItems, cleanedArr, cleanItems_cleaned rest]
    | arr items => simp [cleanItems, cleanedArr, cleanItems_cleaned rest]

end

/-- C6 counterexample: an in-memory tree with a null-valued key inside an
object nested below two array levels is written to the file completely
unchanged — `remove_nones` discards the cleaned list comprehension it
builds for list values, so the null-valued key `"b"` is *not* stripped and
ends up in the file, refuting "strips null-valued keys recursively". -/
theorem save_keeps_null_key_under_nested_arrays :
    savedContent
        ⟨some ("db.json"),
         JVal.obj [("a", JVal.arr [JVal.arr [JVal.obj [("b", JVal.null)]]])]⟩
        (fun _ => none) =
      some (JVal.obj
        [("a", JVal.arr [JVal.arr [JVal.obj [("b", JVal.null)]]])]) ∧
    hasNullIn
        (JVal.obj
          [("a", JVal.arr [JVal.arr [JVal.obj [("b", JVal.null)]]])]) =
      true := by
  constructor
  · simp [savedContent, JsonDB.save, remove_nones, cleanFields, cleanItems]
  · simp [hasNullIn, hasNullField, hasNullArr]

/-- C6 as amended: with a filename configured, `save()` overwrites exactly
the target file with the serialized tree (the derived-class-supplied
`_objectToSave` output) after `remove_nones`, which strips null-valued keys
from objects recursively through object values and through objects that
are direct array elements — but objects nested below a second level of
arrays, and null elements of arrays, are left as they are; with no
filename, `save()` fails and writes nothing. -/
theorem jsonDB_save_spec (db : JsonDB) (fs : String → Option JVal) :
    (∀ fn fields, db.filename = some fn →
      db.objectToSave = JVal.obj fields →
      ∃ fs', JsonDB.save db fs = Except.ok fs' ∧
        fs' fn = some (JVal.obj (cleanFields fields)) ∧
        cleanedVal (JVal.obj (cleanFields fields)) = true ∧
        ∀ g, g ≠ fn → fs' g = fs g) ∧
    (db.filename = none →
      JsonDB.save db fs = Except.error ("filename is not set")) := by
  constructor
  · intro fn fields hfn hobj
    refine ⟨fun g => if g = fn then some (remove_nones db.objectToSave)
              else fs g, ?_, ?_, ?_, ?_⟩
    · simp [JsonDB.save, hfn]
    · simp [hobj, remove_nones]
    · simpa [cleanedVal] using cleanFields_cleaned fields
    · intro g hg
      simp [hg]
  · intro hfn
    simp [JsonDB.save, hfn]

/-- Witness for the amended claim C6: saving a tree with one null-valued and
one live key writes the tree with the null-valued key stripped. -/
theorem jsonDB_save_spec_witness :
    ((⟨some ("db.json"), JVal.obj [("x", JVal.null), ("y", JVal.int 1)]⟩ :
        JsonDB).filename = some ("db.json")) ∧
    (∃ fs', JsonDB.save
        ⟨some ("db.json"), JVal.obj [("x", JVal.null), ("y", JVal.int 1)]⟩
        (fun _ => none) = Except.ok fs' ∧
      fs' ("db.json") =
        some (JVal.obj (cleanFields [("x", JVal.null), ("y", JVal.int 1)])) ∧
      cleanedVal (JVal.obj
        (cleanFields [("x", JVal.null), ("y", JVal.int 1)])) = true ∧
      ∀ g, g ≠ "db.json" → fs' g = (fun _ => (none : Option JVal)) g) :=
  ⟨rfl,
   (jsonDB_save_spec
      ⟨some ("db.json"), JVal.obj [("x", JVal.null), ("y", JVal.int 1)]⟩
      (fun _ => none)).1 ("db.json") [("x", JVal.null), ("y", JVal.int 1)]
      rfl rfl⟩

end PyApi
